import Mathlib

/-!
Verification of the solana-contracts bridge core (round-loader, token-proxy,
bridge-utils) against its natural-language specification.

The data model and operations are shallowly embedded: machine integers become
`Nat`/`Int` (with explicit bounds where overflow matters), byte arrays become
lists of `Nat`, fallible operations return `Except`/`Option`.  Definitions are
translated from the Rust sources under `src/`; where the deciding Rust code of
this repository is not present under `src/` (the round-loader processor and the
token-proxy processor), the corresponding operation is modelled from the spec,
and its doc comment says so.
-/

namespace SolanaContracts

/-! ### Byte-level helpers (borsh little-endian integers) -/

/-- Little-endian base-256 encoding of `n` into exactly `k` digits
(borsh encoding of fixed-width unsigned integers). -/
def encodeLE : Nat → Nat → List Nat
  | 0, _ => []
  | k + 1, n => n % 256 :: encodeLE k (n / 256)

/-- Little-endian base-256 decoding of a digit list. -/
def decodeLE : List Nat → Nat
  | [] => 0
  | b :: bs => b + 256 * decodeLE bs

theorem length_encodeLE (k n : Nat) : (encodeLE k n).length = k := by
  induction k generalizing n with
  | zero => rfl
  | succ k ih => simp [encodeLE, ih]

theorem decodeLE_encodeLE (k n : Nat) : decodeLE (encodeLE k n) = n % 256 ^ k := by
  induction k generalizing n with
  | zero => simp [encodeLE, decodeLE, Nat.mod_one]
  | succ k ih =>
      simp only [encodeLE, decodeLE, ih]
      rw [pow_succ', Nat.mod_mul]

/-- A 32-byte array (`[u8; 32]` in the source), the representation of both
Solana public keys and EVER 256-bit hashes. -/
abbrev Bytes32 := { l : List Nat // l.length = 32 }

/-- Solana `Pubkey` is a 32-byte array. -/
abbrev Pubkey := Bytes32

/-! ### bridge-utils types (src/bridge-utils/src/types.rs) -/

/-- `MsgAddrStd { workchain_id: i8, address: [u8; 32] }`. -/
structure MsgAddrStd where
  workchain_id : Int
  address : Bytes32
deriving DecidableEq

/-- `EverAddress`, a one-variant enum wrapping `MsgAddrStd`. -/
inductive EverAddress where
  | addrStd (a : MsgAddrStd)
deriving DecidableEq

/-- `UInt256([u8; 32])`, a newtype around a 32-byte array. -/
structure UInt256 where
  data : Bytes32
deriving DecidableEq

/-- `impl From<[u8; 32]> for UInt256` (the owned conversion). -/
def UInt256.ofBytes (b : Bytes32) : UInt256 := ⟨b⟩

/-- `impl From<&[u8; 32]> for UInt256` (the borrowed conversion, which
dereferences and copies the array). -/
def UInt256.ofBytesRef (b : Bytes32) : UInt256 := ⟨b⟩

/-- `UInt256::as_slice`, returning the wrapped 32-byte array. -/
def UInt256.as_slice (u : UInt256) : Bytes32 := u.data

/-- `Vote` from bridge-utils.  The type itself is not under `src/`
(only its uses in the round-loader tests and the token-proxy state are).
Modelled from the spec: a tagged value `{ None, Confirm, Reject }`. -/
inductive Vote where
  | none
  | confirm
  | reject
deriving DecidableEq

/-! ### round-loader data model

The round-loader `state.rs` is not part of `src/`; the record shapes below are
modelled from the spec (§3) and from the fields the functional test
`src/round-loader/tests/functional.rs` reads and writes. -/

/-- Modelled from the spec: `RelayRound { round_number: u32, round_end:
timestamp, relays: ordered set of Identity }` (§3), matching the fields the
functional test packs and unpacks. -/
structure RelayRound where
  round_number : Nat
  round_end : Int
  relays : List Pubkey
deriving DecidableEq

/-- Modelled from the spec: the round-loader `Settings` singleton tracks
`current_round_number` (§3, §4.1), called `round_number` in the functional
test. -/
structure RoundSettings where
  round_number : Nat
deriving DecidableEq

/-- Modelled from the spec: the rotation-proposal event payload
`{ round_number, relays, round_end }` carried by
`RelayRoundProposalEventWithLen` in the functional test. -/
structure RelayRoundProposalEvent where
  round_num : Nat
  relays : List Pubkey
  round_end : Int
deriving DecidableEq

/-- Modelled from the spec: a rotation `Proposal` (§3): the referenced voting
round, the quorum threshold frozen at creation, the event payload, the
`executed` flag of its meta, and one `Vote` slot per relay of the referenced
round. -/
structure RelayRoundProposal where
  round_number : Nat
  required_votes : Nat
  event : RelayRoundProposalEvent
  is_executed : Bool
  signers : List Vote
deriving DecidableEq

/-- `RoundLoaderError` (src/round-loader/src/error.rs). -/
inductive RoundLoaderError where
  | InvalidRelay
  | InvalidRelayRound
  | RelayAlreadyVoted
  | RelayRoundExpired
deriving DecidableEq

/-- Quorum: the required-votes formula asserted by the functional test,
`(relays.len() * 2 / 3 + 1)` (src/round-loader/tests/functional.rs:284),
which is the spec's `floor(2*n/3) + 1`. -/
def quorum (n : Nat) : Nat := n * 2 / 3 + 1

/-- Modelled from the spec: proposal creation (§4.1, §3) — `round_number` is
set to `Settings.current_round_number`, `required_votes` to the quorum of the
relay count of that round, every signer slot to `Vote.none`, and the meta
starts not executed. -/
def createProposal (s : RoundSettings) (round : RelayRound)
    (event : RelayRoundProposalEvent) : RelayRoundProposal :=
  { round_number := s.round_number
    required_votes := quorum round.relays.length
    event := event
    is_executed := false
    signers := List.replicate round.relays.length Vote.none }

/-- Index of the first occurrence of `x` in `l`, if any (the relay's signer
slot: relays are unique, one slot per relay, in relay-set order). -/
def findSlot (l : List Pubkey) (x : Pubkey) : Option Nat :=
  match l with
  | [] => Option.none
  | y :: ys =>
      if y = x then Option.some 0
      else (findSlot ys x).map (· + 1)

/-- Count of `Confirm` votes among the signer slots. -/
def countConfirm (l : List Vote) : Nat := l.countP (fun v => v = Vote.confirm)

/-- Modelled from the spec: the voting engine `vote(relay_identity, proposal,
vote)` (§4.3).  `round` is the relay round named by `proposal.round_number`
(resolved by the environment); `now` is the externally supplied wall-clock
time.  Steps, in order: slot lookup (`InvalidRelay` if absent); expiry check
(`RelayRoundExpired` when `now` exceeds `round_end` and the proposal is not yet
executed); repeat-vote check (`RelayAlreadyVoted` when the slot is not
`None`); write the vote; recompute confirmations and mark the proposal
executable when quorum is reached and it was not already executed.  Error
names are those of src/round-loader/src/error.rs. -/
def voteOnProposal (round : RelayRound) (p : RelayRoundProposal)
    (relay : Pubkey) (v : Vote) (now : Int) :
    Except RoundLoaderError RelayRoundProposal :=
  match findSlot round.relays relay with
  | Option.none => .error .InvalidRelay
  | Option.some slot =>
      if now > round.round_end ∧ p.is_executed = false then
        .error .RelayRoundExpired
      else if p.signers.getD slot Vote.none ≠ Vote.none then
        .error .RelayAlreadyVoted
      else
        let signers := p.signers.set slot v
        if countConfirm signers ≥ p.required_votes ∧ p.is_executed = false then
          .ok { p with signers := signers, is_executed := true }
        else
          .ok { p with signers := signers }

/-- One vote request: the voting relay, its vote, and the wall-clock time of
the request. -/
structure VoteOp where
  relay : Pubkey
  v : Vote
  now : Int

/-- Apply a sequence of vote requests against a fixed relay round, ignoring
requests that fail (the enclosing atomic-apply boundary discards the effects
of a failed operation, §7). -/
def applyVotes (round : RelayRound) : List VoteOp → RelayRoundProposal → RelayRoundProposal
  | [], p => p
  | op :: ops, p =>
      match voteOnProposal round p op.relay op.v op.now with
      | .ok p1 => applyVotes round ops p1
      | .error _ => applyVotes round ops p

/-- Failure modes of rotation execution.  `invalidRelayRound` is
`RoundLoaderError::InvalidRelayRound`; the spec names no code for executing a
proposal that has not reached quorum or whose target round slot is occupied,
so those get their own tags (`notExecuted`, the §7 taxonomy's
`AlreadyInitialized`). -/
inductive ExecuteRotationError where
  | notExecuted
  | invalidRelayRound
  | alreadyInitialized
deriving DecidableEq

/-- Modelled from the spec: `execute_rotation(proposal)` (§4.1).
Preconditions: `proposal.meta.executed == true` (quorum reached), new
`round_number == Settings.current_round_number + 1` (fails with
`InvalidRelayRound` otherwise), target round slot unoccupied.  Effect: creates
a new `RelayRound` from the proposal's event-supplied relay set and round_end
and advances `Settings.current_round_number`.  `rounds` is the store of relay
rounds keyed by round number. -/
def executeRotation (s : RoundSettings) (rounds : Nat → Option RelayRound)
    (p : RelayRoundProposal) :
    Except ExecuteRotationError (RoundSettings × (Nat → Option RelayRound)) :=
  if p.is_executed = false then .error .notExecuted
  else if p.event.round_num ≠ s.round_number + 1 then .error .invalidRelayRound
  else if (rounds p.event.round_num).isSome then .error .alreadyInitialized
  else
    let newRound : RelayRound :=
      { round_number := p.event.round_num
        round_end := p.event.round_end
        relays := p.event.relays }
    .ok ({ round_number := p.event.round_num },
         fun k => if k = p.event.round_num then Option.some newRound else rounds k)

/-! ### ChunkedEventAssembler

The round-loader processor that implements `write_proposal` / `finalize` is
not under `src/`; the assembler below is modelled from the spec (§4.2) and the
chunked writes performed by the functional test. -/

/-- Failure modes of the assembler, from the spec's error taxonomy (§7). -/
inductive AssemblerError where
  | invalidChunkOffset
  | incompleteProposal
deriving DecidableEq

/-- The pre-sized event buffer: one slot per byte of the declared total
length, `Option.none` while the byte has never been written. -/
def emptyBuf (total : Nat) : List (Option Nat) := List.replicate total Option.none

/-- Overwrite buffer positions `offset, offset+1, …` with the given bytes. -/
def setRange (buf : List (Option Nat)) (offset : Nat) (bytes : List Nat) :
    List (Option Nat) :=
  match bytes with
  | [] => buf
  | b :: bs => setRange (buf.set offset (Option.some b)) (offset + 1) bs

/-- Modelled from the spec: `write(proposal, offset, bytes)` (§4.2) —
overwrites the window `[offset, offset + len(bytes))` of the pre-sized buffer,
failing with `InvalidChunkOffset` when the window ends beyond the declared
total length. -/
def writeChunk (buf : List (Option Nat)) (offset : Nat) (bytes : List Nat) :
    Except AssemblerError (List (Option Nat)) :=
  if offset + bytes.length > buf.length then .error .invalidChunkOffset
  else .ok (setRange buf offset bytes)

/-- One buffer-write step of a chunk sequence; a failed write leaves the
buffer unchanged (the atomic-apply boundary discards failed operations). -/
def chunkStep (buf : List (Option Nat)) (w : Nat × List Nat) :
    List (Option Nat) :=
  match writeChunk buf w.1 w.2 with
  | .ok buf1 => buf1
  | .error _ => buf

/-- Apply a sequence of chunk writes `(offset, bytes)` in order. -/
def applyChunks (l : List (Nat × List Nat)) (buf : List (Option Nat)) :
    List (Option Nat) :=
  l.foldl chunkStep buf

/-- The decoded shape of a proposal event: the explicit `u32` length prefix
and the payload bytes it declares. -/
structure LenPrefixed where
  len : Nat
  payload : List Nat
deriving DecidableEq

/-- Modelled from the spec: decode a length-prefixed event payload (§6,
persisted record layout): a 4-byte little-endian length prefix followed by
exactly that many payload bytes. -/
def decodeEvent (bs : List Nat) : Option LenPrefixed :=
  if 4 ≤ bs.length ∧ (bs.drop 4).length = decodeLE (bs.take 4) then
    Option.some ⟨decodeLE (bs.take 4), bs.drop 4⟩
  else
    Option.none

/-- Modelled from the spec: `finalize(proposal)` (§4.2) — fails with
`IncompleteProposal` when any byte of the declared length was never written or
when decoding fails, and otherwise yields the decoded event. -/
def finalizeChunks (buf : List (Option Nat)) :
    Except AssemblerError LenPrefixed :=
  if buf.all Option.isSome then
    match decodeEvent (buf.map (fun o => o.getD 0)) with
    | Option.some e => .ok e
    | Option.none => .error .incompleteProposal
  else
    .error .incompleteProposal

/-- Two chunk windows are disjoint when one ends at or before the other
starts. -/
def disjointChunks (w1 w2 : Nat × List Nat) : Prop :=
  w1.1 + w1.2.length ≤ w2.1 ∨ w2.1 + w2.2.length ≤ w1.1

instance (w1 w2 : Nat × List Nat) : Decidable (disjointChunks w1 w2) := by
  unfold disjointChunks
  infer_instance

/-! ### token-proxy data model (src/token-proxy/src/state.rs) -/

/-- `PUBKEY_BYTES` of solana_program. -/
def PUBKEY_BYTES : Nat := 32

/-- `WITHDRAWAL_TOKEN_PERIOD: i64 = 86400` (src/token-proxy/src/state.rs:11). -/
def WITHDRAWAL_TOKEN_PERIOD : Int := 86400

/-- `WITHDRAWAL_TOKEN_EVENT_LEN` (src/token-proxy/src/state.rs:13):
ever sender address + amount + solana recipient address. -/
def WITHDRAWAL_TOKEN_EVENT_LEN : Nat := PUBKEY_BYTES + 1 + 1 + 8 + PUBKEY_BYTES

/-- `WITHDRAWAL_TOKEN_META_LEN` (src/token-proxy/src/state.rs:18):
author + status + bounty. -/
def WITHDRAWAL_TOKEN_META_LEN : Nat := PUBKEY_BYTES + 1 + 8

/-- `DEPOSIT_TOKEN_EVENT_LEN` (src/token-proxy/src/state.rs:23):
amount + ever recipient address + solana sender address. -/
def DEPOSIT_TOKEN_EVENT_LEN : Nat := 8 + (PUBKEY_BYTES + 1 + 1) + PUBKEY_BYTES

/-- `TokenKind` (src/token-proxy/src/state.rs:225). -/
inductive TokenKind where
  | ever (mint : Pubkey)
  | solana (mint : Pubkey) (vault : Pubkey)
deriving DecidableEq

/-- `WithdrawalTokenStatus` (src/token-proxy/src/state.rs:233). -/
inductive WithdrawalTokenStatus where
  | New
  | Processed
  | Cancelled
  | Pending
  | WaitingForApprove
  | WaitingForRelease
deriving DecidableEq

/-- The token-proxy `Settings` record (src/token-proxy/src/state.rs:30).
`u64` fields are `Nat` (bounded by `Settings.wellFormed`), the `i64`
`withdrawal_ttl` is `Int`. -/
structure Settings where
  is_initialized : Bool
  kind : TokenKind
  admin : Pubkey
  emergency : Bool
  deposit_limit : Nat
  withdrawal_limit : Nat
  withdrawal_daily_limit : Nat
  withdrawal_daily_amount : Nat
  withdrawal_ttl : Int
deriving DecidableEq

/-- The `u64` fields of `Settings` fit in 64 bits and the `i64` field in its
signed range. -/
def Settings.wellFormed (s : Settings) : Prop :=
  s.deposit_limit < 2 ^ 64 ∧ s.withdrawal_limit < 2 ^ 64 ∧
    s.withdrawal_daily_limit < 2 ^ 64 ∧ s.withdrawal_daily_amount < 2 ^ 64 ∧
    -(2 ^ 63) ≤ s.withdrawal_ttl ∧ s.withdrawal_ttl < 2 ^ 63

instance (s : Settings) : Decidable s.wellFormed := by
  unfold Settings.wellFormed
  infer_instance

/-! ### Borsh serialization of the token-proxy records

The records derive `BorshSerialize`/`BorshDeserialize`: fields are serialized
in declaration order; `bool` is one byte, fixed-width integers are
little-endian, enums are a one-byte variant tag followed by the variant's
fields, `String`/`Vec` carry a `u32` length prefix. -/

/-- Borsh `bool`: a single `0`/`1` byte. -/
def serBool (b : Bool) : List Nat := [if b then 1 else 0]

/-- Borsh `u32`. -/
def serU32 (n : Nat) : List Nat := encodeLE 4 n

/-- Borsh `u64`. -/
def serU64 (n : Nat) : List Nat := encodeLE 8 n

/-- Borsh `i64`: the two's-complement bit pattern, little-endian. -/
def serI64 (x : Int) : List Nat := encodeLE 8 (x % 2 ^ 64).toNat

/-- Borsh `i8`: one two's-complement byte. -/
def serI8 (x : Int) : List Nat := [(x % 256).toNat]

/-- Borsh `[u8; 32]`: the raw bytes. -/
def serBytes32 (p : Bytes32) : List Nat := p.val

/-- Borsh `String` / byte vector: `u32` length prefix followed by the bytes.
Strings are modelled by their UTF-8 byte lists. -/
def serString (s : List Nat) : List Nat := serU32 s.length ++ s

/-- Borsh `EverAddress`: variant tag `0` (`AddrStd`), then `workchain_id: i8`
and `address: [u8; 32]`. -/
def serEverAddress : EverAddress → List Nat
  | .addrStd a => 0 :: (serI8 a.workchain_id ++ serBytes32 a.address)

/-- Borsh `TokenKind`: variant tag, then the variant's pubkeys. -/
def serTokenKind : TokenKind → List Nat
  | .ever mint => 0 :: serBytes32 mint
  | .solana mint vault => 1 :: (serBytes32 mint ++ serBytes32 vault)

/-- Borsh `WithdrawalTokenStatus`: the one-byte variant tag. -/
def serStatus : WithdrawalTokenStatus → List Nat
  | .New => [0]
  | .Processed => [1]
  | .Cancelled => [2]
  | .Pending => [3]
  | .WaitingForApprove => [4]
  | .WaitingForRelease => [5]

/-- Borsh serialization of `Settings`, fields in declaration order. -/
def serSettings (s : Settings) : List Nat :=
  serBool s.is_initialized ++ serTokenKind s.kind ++ serBytes32 s.admin ++
    serBool s.emergency ++ serU64 s.deposit_limit ++
    serU64 s.withdrawal_limit ++ serU64 s.withdrawal_daily_limit ++
    serU64 s.withdrawal_daily_amount ++ serI64 s.withdrawal_ttl

/-! ### Borsh deserialization (inverse direction of the derive) -/

/-- Take exactly `k` bytes from the stream. -/
def pBytes : Nat → List Nat → Option (List Nat × List Nat)
  | 0, s => Option.some ([], s)
  | _ + 1, [] => Option.none
  | k + 1, b :: s => (pBytes k s).map (fun r => (b :: r.1, r.2))

/-- Parse a borsh `bool` (strict: a byte other than `0`/`1` is rejected). -/
def pBool (s : List Nat) : Option (Bool × List Nat) :=
  match s with
  | 0 :: r => Option.some (false, r)
  | 1 :: r => Option.some (true, r)
  | _ => Option.none

/-- Parse a borsh `u64`. -/
def pU64 (s : List Nat) : Option (Nat × List Nat) :=
  (pBytes 8 s).map (fun r => (decodeLE r.1, r.2))

/-- Parse a borsh `i64` (bit pattern below `2^63` is non-negative, the rest
wraps to negative). -/
def pI64 (s : List Nat) : Option (Int × List Nat) :=
  (pBytes 8 s).map (fun r =>
    (if decodeLE r.1 < 2 ^ 63 then (decodeLE r.1 : Int)
     else (decodeLE r.1 : Int) - 2 ^ 64, r.2))

/-- Parse a borsh `[u8; 32]`. -/
def pBytes32 (s : List Nat) : Option (Bytes32 × List Nat) :=
  match pBytes 32 s with
  | Option.some (l, r) =>
      if h : l.length = 32 then Option.some (⟨l, h⟩, r) else Option.none
  | Option.none => Option.none

/-- Parse a borsh `TokenKind`. -/
def pTokenKind (s : List Nat) : Option (TokenKind × List Nat) :=
  match s with
  | 0 :: r => (pBytes32 r).map (fun m => (TokenKind.ever m.1, m.2))
  | 1 :: r =>
      match pBytes32 r with
      | Option.some (mint, r1) =>
          (pBytes32 r1).map (fun v => (TokenKind.solana mint v.1, v.2))
      | Option.none => Option.none
  | _ => Option.none

/-- Borsh deserialization of `Settings`, fields in declaration order. -/
def pSettings (s : List Nat) : Option (Settings × List Nat) :=
  (pBool s).bind fun r1 =>
  (pTokenKind r1.2).bind fun r2 =>
  (pBytes32 r2.2).bind fun r3 =>
  (pBool r3.2).bind fun r4 =>
  (pU64 r4.2).bind fun r5 =>
  (pU64 r5.2).bind fun r6 =>
  (pU64 r6.2).bind fun r7 =>
  (pU64 r7.2).bind fun r8 =>
  (pI64 r8.2).bind fun r9 =>
  Option.some (⟨r1.1, r2.1, r3.1, r4.1, r5.1, r6.1, r7.1, r8.1, r9.1⟩, r9.2)

/-! ### The spec's view of the token-proxy Settings record

A second definition following the spec's words (§3), for comparison with the
source's `Settings`:  `{ admin/guardian/manager/withdrawal_manager identities,
emergency: bool, deposit_limit, withdrawal_limit, withdrawal_daily_limit,
withdrawal_daily_amount: u64, withdrawal_window_start: timestamp,
current_round_number: u32 }`. -/
structure SpecSettings where
  admin : Pubkey
  guardian : Pubkey
  manager : Pubkey
  withdrawal_manager : Pubkey
  emergency : Bool
  deposit_limit : Nat
  withdrawal_limit : Nat
  withdrawal_daily_limit : Nat
  withdrawal_daily_amount : Nat
  withdrawal_window_start : Int
  current_round_number : Nat
deriving DecidableEq

/-- Borsh-style serialization of the spec's Settings shape, fields in the
spec's order (identities, flag, `u64` limits and accumulator, `i64`
timestamp, `u32` round number). -/
def serSpecSettings (s : SpecSettings) : List Nat :=
  serBytes32 s.admin ++ serBytes32 s.guardian ++ serBytes32 s.manager ++
    serBytes32 s.withdrawal_manager ++ serBool s.emergency ++
    serU64 s.deposit_limit ++ serU64 s.withdrawal_limit ++
    serU64 s.withdrawal_daily_limit ++ serU64 s.withdrawal_daily_amount ++
    serI64 s.withdrawal_window_start ++ serU32 s.current_round_number

/-! ### The WithLen substructures (src/token-proxy/src/state.rs) -/

/-- `DepositTokenEvent` (src/token-proxy/src/state.rs:83). -/
structure DepositTokenEvent where
  sender_address : Pubkey
  amount : Nat
  recipient_address : EverAddress
  configuration : EverAddress
deriving DecidableEq

/-- `DepositTokenEventWithLen` (src/token-proxy/src/state.rs:91). -/
structure DepositTokenEventWithLen where
  len : Nat
  data : DepositTokenEvent
deriving DecidableEq

/-- `DepositTokenEventWithLen::new` (src/token-proxy/src/state.rs:97): the
`len` field is set to the constant `DEPOSIT_TOKEN_EVENT_LEN`. -/
def DepositTokenEventWithLen.new (sender_address : Pubkey) (amount : Nat)
    (recipient_address : EverAddress) (configuration : EverAddress) :
    DepositTokenEventWithLen :=
  { len := DEPOSIT_TOKEN_EVENT_LEN
    data := ⟨sender_address, amount, recipient_address, configuration⟩ }

/-- Borsh serialization of `DepositTokenEvent`, fields in declaration
order. -/
def serDepositTokenEvent (e : DepositTokenEvent) : List Nat :=
  serBytes32 e.sender_address ++ serU64 e.amount ++
    serEverAddress e.recipient_address ++ serEverAddress e.configuration

/-- `DepositTokenMeta` (src/token-proxy/src/state.rs:116); the `String`
field is modelled by its UTF-8 bytes. -/
structure DepositTokenMeta where
  token_symbol : List Nat
deriving DecidableEq

/-- `DepositTokenMetaWithLen` (src/token-proxy/src/state.rs:121). -/
structure DepositTokenMetaWithLen where
  len : Nat
  data : DepositTokenMeta
deriving DecidableEq

/-- `DepositTokenMetaWithLen::new` (src/token-proxy/src/state.rs:127): `len`
is the borsh-serialized length of `token_symbol`. -/
def DepositTokenMetaWithLen.new (token_symbol : List Nat) :
    DepositTokenMetaWithLen :=
  { len := (serString token_symbol).length
    data := ⟨token_symbol⟩ }

/-- Borsh serialization of `DepositTokenMeta`. -/
def serDepositTokenMeta (m : DepositTokenMeta) : List Nat :=
  serString m.token_symbol

/-- `WithdrawalTokenEvent` (src/token-proxy/src/state.rs:155). -/
structure WithdrawalTokenEvent where
  sender_address : EverAddress
  amount : Nat
  recipient_address : Pubkey
  token_symbol : List Nat
deriving DecidableEq

/-- `WithdrawalTokenEventWithLen` (src/token-proxy/src/state.rs:163). -/
structure WithdrawalTokenEventWithLen where
  len : Nat
  data : WithdrawalTokenEvent
deriving DecidableEq

/-- `WithdrawalTokenEventWithLen::new` (src/token-proxy/src/state.rs:169):
`len = WITHDRAWAL_TOKEN_EVENT_LEN + token_symbol.try_to_vec()?.len()`. -/
def WithdrawalTokenEventWithLen.new (sender_address : EverAddress)
    (amount : Nat) (recipient_address : Pubkey) (token_symbol : List Nat) :
    WithdrawalTokenEventWithLen :=
  { len := WITHDRAWAL_TOKEN_EVENT_LEN + (serString token_symbol).length
    data := ⟨sender_address, amount, recipient_address, token_symbol⟩ }

/-- Borsh serialization of `WithdrawalTokenEvent`, fields in declaration
order. -/
def serWithdrawalTokenEvent (e : WithdrawalTokenEvent) : List Nat :=
  serEverAddress e.sender_address ++ serU64 e.amount ++
    serBytes32 e.recipient_address ++ serString e.token_symbol

/-- `WithdrawalTokenMeta` (src/token-proxy/src/state.rs:188). -/
structure WithdrawalTokenMeta where
  author : Pubkey
  status : WithdrawalTokenStatus
  bounty : Nat
deriving DecidableEq

/-- `WithdrawalTokenMetaWithLen` (src/token-proxy/src/state.rs:195). -/
structure WithdrawalTokenMetaWithLen where
  len : Nat
  data : WithdrawalTokenMeta
deriving DecidableEq

/-- `WithdrawalTokenMetaWithLen::new` (src/token-proxy/src/state.rs:201):
`len` is the constant `WITHDRAWAL_TOKEN_META_LEN`. -/
def WithdrawalTokenMetaWithLen.new (author : Pubkey)
    (status : WithdrawalTokenStatus) (bounty : Nat) :
    WithdrawalTokenMetaWithLen :=
  { len := WITHDRAWAL_TOKEN_META_LEN
    data := ⟨author, status, bounty⟩ }

/-- Borsh serialization of `WithdrawalTokenMeta`, fields in declaration
order. -/
def serWithdrawalTokenMeta (m : WithdrawalTokenMeta) : List Nat :=
  serBytes32 m.author ++ serStatus m.status ++ serU64 m.bounty

/-! ### WithdrawalLimiter and EmergencyGate

The token-proxy processor is not under `src/`; the operations below are
modelled from the spec (§4.4, §4.5, §6), over the source's `Settings`
record.  The spec's `withdrawal_window_start` timestamp is the `Settings`
field `withdrawal_ttl`; the spec's `WITHDRAWAL_PERIOD` is the source constant
`WITHDRAWAL_TOKEN_PERIOD`. -/

/-- Failure codes of the token-proxy paths, from the spec's error taxonomy
(§7). -/
inductive TokenProxyError where
  | EmergencyModeActive
  | DepositLimitExceeded
  | WithdrawalLimitExceeded
  | DailyLimitExceeded
deriving DecidableEq

/-- Modelled from the spec: `check_and_reserve(settings, amount, now)`
(§4.4) — single-transaction cap, rolling-window reset, daily cap, then
commit of the accumulator. -/
def checkAndReserve (s : Settings) (amount : Nat) (now : Int) :
    Except TokenProxyError Settings :=
  if amount > s.withdrawal_limit then .error .WithdrawalLimitExceeded
  else if now - s.withdrawal_ttl ≥ WITHDRAWAL_TOKEN_PERIOD then
    if 0 + amount > s.withdrawal_daily_limit then .error .DailyLimitExceeded
    else
      .ok { s with withdrawal_daily_amount := 0 + amount
                   withdrawal_ttl := now }
  else
    if s.withdrawal_daily_amount + amount > s.withdrawal_daily_limit then
      .error .DailyLimitExceeded
    else
      .ok { s with withdrawal_daily_amount
              := s.withdrawal_daily_amount + amount }

/-- A pending withdrawal proposal as far as execution is concerned: its vote
slots, its quorum threshold, its amount and its status (the fields of the
source's `WithdrawalToken` record that the execution path reads). -/
structure WithdrawalRequest where
  required_votes : Nat
  signers : List Vote
  amount : Nat
  status : WithdrawalTokenStatus
deriving DecidableEq

/-- Modelled from the spec: withdrawal execution (§6 `WithdrawExecute`:
limiter check + release + status→Processed), behind the emergency gate
(§4.5: checked as a precondition at the start of every withdrawal execution
path). -/
def withdrawExecute (s : Settings) (w : WithdrawalRequest) (now : Int) :
    Except TokenProxyError (Settings × WithdrawalRequest) :=
  if s.emergency then .error .EmergencyModeActive
  else
    match checkAndReserve s w.amount now with
    | .error e => .error e
    | .ok s1 => .ok (s1, { w with status := .Processed })

/-- Modelled from the spec: deposit execution (§6 `Deposit`), behind the
emergency gate and the single-transaction deposit cap; the effect (creation
of the append-only deposit record) leaves `Settings` unchanged. -/
def depositExecute (s : Settings) (amount : Nat) :
    Except TokenProxyError Settings :=
  if s.emergency then .error .EmergencyModeActive
  else if amount > s.deposit_limit then .error .DepositLimitExceeded
  else .ok s

/-- The token-proxy state the emergency toggles can reach: the `Settings`
singleton and the withdrawal proposals with their recorded votes. -/
structure TokenProxyState where
  settings : Settings
  withdrawals : List WithdrawalRequest
deriving DecidableEq

/-- Modelled from the spec: `EnableEmergencyMode` (§4.5, §6) — sets the
global emergency flag; it touches only the `Settings` record. -/
def enableEmergencyMode (st : TokenProxyState) : TokenProxyState :=
  { st with settings := { st.settings with emergency := true } }

/-- Modelled from the spec: `DisableEmergencyMode` (§4.5, §6) — clears the
global emergency flag; it touches only the `Settings` record. -/
def disableEmergencyMode (st : TokenProxyState) : TokenProxyState :=
  { st with settings := { st.settings with emergency := false } }

/-! ### Concrete sample values used by the witnesses -/

/-- A concrete 32-byte array filled with the byte `n`. -/
def mkBytes32 (n : Nat) : Bytes32 := ⟨List.replicate 32 n, by simp⟩

/-- A concrete relay round with three relays, as in the functional test. -/
def sampleRound : RelayRound :=
  { round_number := 0
    round_end := 1759950985
    relays := [mkBytes32 1, mkBytes32 2, mkBytes32 3] }

/-- The round-loader settings at round 0. -/
def sampleRoundSettings : RoundSettings := { round_number := 0 }

/-- A concrete rotation event to round 1. -/
def sampleEvent : RelayRoundProposalEvent :=
  { round_num := 1
    relays := [mkBytes32 4, mkBytes32 5, mkBytes32 6]
    round_end := 1759950990 }

/-- The proposal created from the sample round and event. -/
def sampleProposal : RelayRoundProposal :=
  createProposal sampleRoundSettings sampleRound sampleEvent

/-! ### C10 — UInt256 byte round-trip -/

/-- C10: for every 32-byte array `b`, constructing a `UInt256` from `b` via
either the owned or the borrowed `From` conversion and reading it back with
`as_slice` yields exactly `b`. -/
theorem uint256_roundtrip (b : Bytes32) :
    (UInt256.ofBytes b).as_slice = b ∧ (UInt256.ofBytesRef b).as_slice = b :=
  ⟨rfl, rfl⟩

/-! ### C1 — required_votes is floor(2n/3) + 1 -/

/-- C1: a newly created proposal records `required_votes = floor(2*n/3) + 1`
where `n` is the relay count of the referenced round; concretely `n = 1..7`
give `1, 2, 3, 3, 4, 5, 5`. -/
theorem createProposal_required_votes (s : RoundSettings) (round : RelayRound)
    (e : RelayRoundProposalEvent) :
    (createProposal s round e).required_votes = 2 * round.relays.length / 3 + 1
    ∧ (round.relays.length = 1 → (createProposal s round e).required_votes = 1)
    ∧ (round.relays.length = 2 → (createProposal s round e).required_votes = 2)
    ∧ (round.relays.length = 3 → (createProposal s round e).required_votes = 3)
    ∧ (round.relays.length = 4 → (createProposal s round e).required_votes = 3)
    ∧ (round.relays.length = 5 → (createProposal s round e).required_votes = 4)
    ∧ (round.relays.length = 6 → (createProposal s round e).required_votes = 5)
    ∧ (round.relays.length = 7 → (createProposal s round e).required_votes = 5) := by
  have base : (createProposal s round e).required_votes
      = round.relays.length * 2 / 3 + 1 := rfl
  refine ⟨?_, ?_, ?_, ?_, ?_, ?_, ?_, ?_⟩ <;> rw [base] <;> omega

/-- Witness for C1: the sample three-relay round yields `required_votes = 3`. -/
theorem createProposal_required_votes_witness :
    (createProposal sampleRoundSettings sampleRound sampleEvent).required_votes = 3 :=
  (createProposal_required_votes sampleRoundSettings sampleRound sampleEvent).2.2.2.1 rfl

/-! ### C8 — length prefixes of the WithLen records -/

/-- C8 (failing input): `DepositTokenEventWithLen::new` stores
`len = DEPOSIT_TOKEN_EVENT_LEN = 74`, but the borsh payload of the
`DepositTokenEvent` it wraps occupies 108 bytes (the constant omits the
34-byte `configuration` field), so the stored prefix does not equal the
serialized payload length.  The sibling withdrawal event/meta and deposit
meta records do satisfy the claimed invariant; this record does not. -/
theorem deposit_event_len_mismatch :
    (DepositTokenEventWithLen.new (mkBytes32 0) 0
        (EverAddress.addrStd ⟨0, mkBytes32 0⟩)
        (EverAddress.addrStd ⟨0, mkBytes32 0⟩)).len = 74
    ∧ (serDepositTokenEvent
        (DepositTokenEventWithLen.new (mkBytes32 0) 0
          (EverAddress.addrStd ⟨0, mkBytes32 0⟩)
          (EverAddress.addrStd ⟨0, mkBytes32 0⟩)).data).length = 108
    ∧ (74 : Nat) ≠ 108 := by
  refine ⟨rfl, ?_, by decide⟩
  decide

/-! ### C4 — execute_rotation -/

/-- C4: for an executed (quorum-reached) rotation proposal, `execute_rotation`
succeeds exactly when the proposal's new round number is
`Settings.current_round_number + 1` and the target round slot is unoccupied;
a round-number continuity violation fails with `InvalidRelayRound`; on
success the new `RelayRound` holds exactly the event-supplied relay set and
round_end, `Settings.current_round_number` becomes the new round number, and
no other round slot changes. -/
theorem executeRotation_spec (s : RoundSettings)
    (rounds : Nat → Option RelayRound) (p : RelayRoundProposal)
    (hexec : p.is_executed = true) :
    ((∃ r, executeRotation s rounds p = .ok r)
      ↔ (p.event.round_num = s.round_number + 1
          ∧ rounds p.event.round_num = Option.none))
    ∧ (p.event.round_num ≠ s.round_number + 1 →
        executeRotation s rounds p = .error .invalidRelayRound)
    ∧ (∀ s2 rounds2, executeRotation s rounds p = .ok (s2, rounds2) →
        s2.round_number = p.event.round_num
        ∧ rounds2 p.event.round_num
            = Option.some ⟨p.event.round_num, p.event.round_end, p.event.relays⟩
        ∧ ∀ k, k ≠ p.event.round_num → rounds2 k = rounds k) := by
  by_cases h1 : p.event.round_num = s.round_number + 1
  · by_cases h2 : rounds p.event.round_num = Option.none
    · have hval : executeRotation s rounds p
          = .ok ({ round_number := p.event.round_num },
                 fun k => if k = p.event.round_num then
                     Option.some ⟨p.event.round_num, p.event.round_end,
                       p.event.relays⟩
                   else rounds k) := by
        unfold executeRotation
        rw [if_neg (by simp [hexec]), if_neg (not_not_intro h1),
          if_neg (by simp [h2])]
      refine ⟨⟨fun _ => ⟨h1, h2⟩, fun _ => ⟨_, hval⟩⟩, fun h => absurd h1 h, ?_⟩
      intro s2 rounds2 hok
      rw [hval, Except.ok.injEq, Prod.mk.injEq] at hok
      refine ⟨by rw [← hok.1], by rw [← hok.2]; simp, ?_⟩
      intro k hk
      rw [← hok.2]
      simp [hk]
    · have hval : executeRotation s rounds p = .error .alreadyInitialized := by
        unfold executeRotation
        rw [if_neg (by simp [hexec]), if_neg (not_not_intro h1),
          if_pos (Option.isSome_iff_ne_none.mpr h2)]
      refine ⟨⟨?_, fun hb => absurd hb.2 h2⟩, fun h => absurd h1 h, ?_⟩
      · rintro ⟨r, hr⟩
        rw [hval] at hr
        exact absurd hr (by simp)
      · intro s2 rounds2 hok
        rw [hval] at hok
        exact absurd hok (by simp)
  · have hval : executeRotation s rounds p = .error .invalidRelayRound := by
      unfold executeRotation
      rw [if_neg (by simp [hexec]), if_pos h1]
    refine ⟨⟨?_, fun hb => absurd hb.1 h1⟩, fun _ => hval, ?_⟩
    · rintro ⟨r, hr⟩
      rw [hval] at hr
      exact absurd hr (by simp)
    · intro s2 rounds2 hok
      rw [hval] at hok
      exact absurd hok (by simp)

/-- A quorum-reached (executed) rotation proposal to round 1. -/
def sampleExecutedProposal : RelayRoundProposal :=
  { sampleProposal with
      is_executed := true
      signers := [Vote.confirm, Vote.confirm, Vote.confirm] }

/-- The round store holding only round 0. -/
def sampleRounds : Nat → Option RelayRound :=
  fun k => if k = 0 then Option.some sampleRound else Option.none

/-- Witness for C4: executing the sample quorum-reached proposal over the
sample store succeeds. -/
theorem executeRotation_spec_witness :
    ∃ r, executeRotation sampleRoundSettings sampleRounds
      sampleExecutedProposal = .ok r :=
  (executeRotation_spec sampleRoundSettings sampleRounds
      sampleExecutedProposal rfl).1.mpr ⟨rfl, rfl⟩

/-! ### C7 — emergency gate -/

theorem checkAndReserve_ne_emergency (s : Settings) (amount : Nat) (now : Int) :
    checkAndReserve s amount now ≠ .error .EmergencyModeActive := by
  intro h
  unfold checkAndReserve at h
  split_ifs at h <;> simp_all

/-- C7: while the global emergency flag is set, every deposit execution and
every withdrawal execution fails with `EmergencyModeActive` regardless of the
proposal's quorum state (`w`, and in particular its `signers`, is arbitrary);
the enable/disable toggles touch only the `Settings` record, leaving every
withdrawal proposal and its recorded votes unchanged; after disabling, the
executions no longer fail with `EmergencyModeActive`. -/
theorem emergency_gate (st : TokenProxyState) (w : WithdrawalRequest)
    (amount : Nat) (now : Int) :
    (st.settings.emergency = true →
      withdrawExecute st.settings w now = .error .EmergencyModeActive
      ∧ depositExecute st.settings amount = .error .EmergencyModeActive)
    ∧ (enableEmergencyMode st).settings.emergency = true
    ∧ (disableEmergencyMode st).settings.emergency = false
    ∧ (enableEmergencyMode st).withdrawals = st.withdrawals
    ∧ (disableEmergencyMode st).withdrawals = st.withdrawals
    ∧ withdrawExecute (disableEmergencyMode st).settings w now
        ≠ .error .EmergencyModeActive
    ∧ depositExecute (disableEmergencyMode st).settings amount
        ≠ .error .EmergencyModeActive := by
  refine ⟨?_, rfl, rfl, rfl, rfl, ?_, ?_⟩
  · intro hem
    exact ⟨by unfold withdrawExecute; rw [if_pos hem],
           by unfold depositExecute; rw [if_pos hem]⟩
  · unfold withdrawExecute
    rw [if_neg (by simp [disableEmergencyMode])]
    rcases hcr : checkAndReserve (disableEmergencyMode st).settings w.amount now
      with e | s1
    · have hne := checkAndReserve_ne_emergency
        (disableEmergencyMode st).settings w.amount now
      rw [hcr] at hne
      simpa using hne
    · simp
  · unfold depositExecute
    rw [if_neg (by simp [disableEmergencyMode])]
    split_ifs <;> simp

/-- A concrete token-proxy Settings record (emergency off). -/
def sampleSettings : Settings :=
  { is_initialized := true
    kind := .ever (mkBytes32 7)
    admin := mkBytes32 8
    emergency := false
    deposit_limit := 1000
    withdrawal_limit := 1000
    withdrawal_daily_limit := 1000
    withdrawal_daily_amount := 0
    withdrawal_ttl := 0 }

/-- A concrete pending withdrawal with a full quorum of confirmations. -/
def sampleWithdrawal : WithdrawalRequest :=
  { required_votes := 3
    signers := [Vote.confirm, Vote.confirm, Vote.confirm]
    amount := 400
    status := .New }

/-- A concrete token-proxy state with emergency mode enabled. -/
def sampleEmergencyState : TokenProxyState :=
  { settings := { sampleSettings with emergency := true }
    withdrawals := [sampleWithdrawal] }

/-- Witness for C7: with emergency enabled, the sample withdrawal (whose
quorum is reached) and a sample deposit both fail with
`EmergencyModeActive`. -/
theorem emergency_gate_witness :
    withdrawExecute sampleEmergencyState.settings sampleWithdrawal 5
        = .error .EmergencyModeActive
    ∧ depositExecute sampleEmergencyState.settings 400
        = .error .EmergencyModeActive :=
  (emergency_gate sampleEmergencyState sampleWithdrawal 400 5).1 rfl

/-! ### C6 — withdrawal daily accumulator -/

/-- If the single-transaction cap passes, the window has not elapsed, and the
daily cap accommodates the amount, `check_and_reserve` commits the
accumulator. -/
theorem checkAndReserve_ok_no_reset (s : Settings) (amount : Nat) (now : Int)
    (hcap : amount ≤ s.withdrawal_limit)
    (hwin : now - s.withdrawal_ttl < WITHDRAWAL_TOKEN_PERIOD)
    (hdaily : s.withdrawal_daily_amount + amount ≤ s.withdrawal_daily_limit) :
    checkAndReserve s amount now
      = .ok { s with withdrawal_daily_amount
                := s.withdrawal_daily_amount + amount } := by
  unfold checkAndReserve
  rw [if_neg (by omega), if_neg (by omega), if_neg (by omega)]

/-- If the window has not elapsed and the daily cap is exceeded,
`check_and_reserve` fails with `DailyLimitExceeded`. -/
theorem checkAndReserve_err_no_reset (s : Settings) (amount : Nat) (now : Int)
    (hcap : amount ≤ s.withdrawal_limit)
    (hwin : now - s.withdrawal_ttl < WITHDRAWAL_TOKEN_PERIOD)
    (hdaily : s.withdrawal_daily_amount + amount > s.withdrawal_daily_limit) :
    checkAndReserve s amount now = .error .DailyLimitExceeded := by
  unfold checkAndReserve
  rw [if_neg (by omega), if_neg (by omega), if_pos (by omega)]

/-- Once the period has elapsed, `check_and_reserve` resets the accumulator
and the window start before accumulating. -/
theorem checkAndReserve_ok_reset (s : Settings) (amount : Nat) (now : Int)
    (hcap : amount ≤ s.withdrawal_limit)
    (hwin : now - s.withdrawal_ttl ≥ WITHDRAWAL_TOKEN_PERIOD)
    (hdaily : amount ≤ s.withdrawal_daily_limit) :
    checkAndReserve s amount now
      = .ok { s with withdrawal_daily_amount := amount
                     withdrawal_ttl := now } := by
  unfold checkAndReserve
  rw [if_neg (by omega), if_pos (by omega), if_neg (by omega)]
  simp

/-- C6: starting from a fresh accumulator, two withdrawals of `a` and `b`
at times inside the current `WITHDRAWAL_TOKEN_PERIOD` window (each within the
single-transaction cap) both succeed iff `a + b ≤ withdrawal_daily_limit`;
and any withdrawal arriving once the period has elapsed first resets the
accumulator to `0` and the window start to `now`, so a withdrawal of the
full `withdrawal_daily_limit` succeeds even if the previous window was
exhausted. -/
theorem withdrawal_daily_window (s : Settings) (a b : Nat) (t1 t2 : Int)
    (ha : a ≤ s.withdrawal_limit) (hb : b ≤ s.withdrawal_limit)
    (hfresh : s.withdrawal_daily_amount = 0)
    (h1 : t1 - s.withdrawal_ttl < WITHDRAWAL_TOKEN_PERIOD)
    (h2 : t2 - s.withdrawal_ttl < WITHDRAWAL_TOKEN_PERIOD) :
    ((∃ s1 s2, checkAndReserve s a t1 = .ok s1 ∧ checkAndReserve s1 b t2 = .ok s2)
      ↔ a + b ≤ s.withdrawal_daily_limit)
    ∧ (∀ sx : Settings, ∀ now : Int,
        now - sx.withdrawal_ttl ≥ WITHDRAWAL_TOKEN_PERIOD →
        sx.withdrawal_daily_limit ≤ sx.withdrawal_limit →
        checkAndReserve sx sx.withdrawal_daily_limit now
          = .ok { sx with
                    withdrawal_daily_amount := sx.withdrawal_daily_limit
                    withdrawal_ttl := now }) := by
  constructor
  · constructor
    · rintro ⟨s1, s2, hok1, hok2⟩
      by_cases hda : s.withdrawal_daily_amount + a ≤ s.withdrawal_daily_limit
      · rw [checkAndReserve_ok_no_reset s a t1 ha h1 hda, Except.ok.injEq] at hok1
        subst hok1
        by_cases hdb : a + b ≤ s.withdrawal_daily_limit
        · exact hdb
        · rw [checkAndReserve_err_no_reset _ b t2 (by simpa using hb)
            (by simp; omega) (by simp; omega)] at hok2
          exact absurd hok2 (by simp)
      · rw [checkAndReserve_err_no_reset s a t1 ha h1 (by omega)] at hok1
        exact absurd hok1 (by simp)
    · intro hab
      refine ⟨_, _, checkAndReserve_ok_no_reset s a t1 ha h1 (by omega),
        checkAndReserve_ok_no_reset _ b t2 (by simpa using hb)
          (by simp; omega) (by simp; omega)⟩
  · intro sx now hper hcap
    exact checkAndReserve_ok_reset sx sx.withdrawal_daily_limit now hcap hper le_rfl

/-- Witness for C6: on the sample settings (daily limit 1000, fresh window),
withdrawals of 400 and 500 ten and twenty seconds into the window both
succeed. -/
theorem withdrawal_daily_window_witness :
    ∃ s1 s2, checkAndReserve sampleSettings 400 10 = .ok s1
      ∧ checkAndReserve s1 500 20 = .ok s2 :=
  (withdrawal_daily_window sampleSettings 400 500 10 20 (by decide) (by decide)
    (by decide) (by decide) (by decide)).1.mpr (by decide)

/-! ### Voting-engine lemmas (towards C2 and C3) -/

theorem findSlot_lt_length (l : List Pubkey) (x : Pubkey) (i : Nat)
    (h : findSlot l x = Option.some i) : i < l.length := by
  induction l generalizing i with
  | nil => simp [findSlot] at h
  | cons y ys ih =>
      unfold findSlot at h
      by_cases hy : y = x
      · rw [if_pos hy] at h
        rw [Option.some.injEq] at h
        simp [← h]
      · rw [if_neg hy] at h
        rcases hr : findSlot ys x with _ | j
        · rw [hr] at h
          simp at h
        · rw [hr] at h
          simp at h
          have := ih j hr
          simp only [List.length_cons]
          omega

theorem getD_set_self (l : List Vote) (i : Nat) (v : Vote)
    (h : i < l.length) : (l.set i v).getD i Vote.none = v := by
  induction l generalizing i with
  | nil => simp at h
  | cons y ys ih =>
      cases i with
      | zero => rfl
      | succ j =>
          simp only [List.set_cons_succ, List.getD_cons_succ]
          exact ih j (by simpa using h)

theorem countConfirm_le_set (l : List Vote) (i : Nat) (v : Vote)
    (h : l.getD i Vote.none = Vote.none) :
    countConfirm l ≤ countConfirm (l.set i v) := by
  induction l generalizing i with
  | nil => simp
  | cons y ys ih =>
      cases i with
      | zero =>
          simp only [List.getD_cons_zero] at h
          subst h
          simp only [List.set_cons_zero]
          unfold countConfirm
          simp only [List.countP_cons]
          cases v <;> simp [countConfirm]
      | succ j =>
          simp only [List.getD_cons_succ] at h
          simp only [List.set_cons_succ]
          unfold countConfirm
          simp only [List.countP_cons]
          have := ih j h
          unfold countConfirm at this
          omega

/-- Dissection of a successful vote: the relay has a slot, the slot was
empty, the vote is written into it, the quorum threshold is untouched, and
the executed flag of the result holds exactly when it already held or the
new confirmation count reaches the threshold. -/
theorem voteOnProposal_ok_destruct (round : RelayRound)
    (p p1 : RelayRoundProposal) (relay : Pubkey) (v : Vote) (now : Int)
    (hv : voteOnProposal round p relay v now = .ok p1) :
    ∃ slot, findSlot round.relays relay = Option.some slot
      ∧ p.signers.getD slot Vote.none = Vote.none
      ∧ p1.signers = p.signers.set slot v
      ∧ p1.required_votes = p.required_votes
      ∧ (p1.is_executed = true ↔
          (p.is_executed = true
            ∨ p.required_votes ≤ countConfirm (p.signers.set slot v))) := by
  unfold voteOnProposal at hv
  rcases hfind : findSlot round.relays relay with _ | slot
  · rw [hfind] at hv
    exact absurd hv (by simp)
  · simp only [hfind] at hv
    refine ⟨slot, rfl, ?_⟩
    by_cases hexp : now > round.round_end ∧ p.is_executed = false
    · rw [if_pos hexp] at hv
      exact absurd hv (by simp)
    · rw [if_neg hexp] at hv
      by_cases hsl : p.signers.getD slot Vote.none ≠ Vote.none
      · rw [if_pos hsl] at hv
        exact absurd hv (by simp)
      · rw [if_neg hsl] at hv
        refine ⟨not_not.mp hsl, ?_⟩
        by_cases hq : countConfirm (p.signers.set slot v) ≥ p.required_votes
            ∧ p.is_executed = false
        · rw [if_pos hq] at hv
          rw [Except.ok.injEq] at hv
          subst hv
          exact ⟨rfl, rfl, by simp [hq.1]⟩
        · rw [if_neg hq] at hv
          rw [Except.ok.injEq] at hv
          subst hv
          refine ⟨rfl, rfl, ?_⟩
          constructor
          · exact fun hx => Or.inl hx
          · rintro (hx | hx)
            · exact hx
            · rcases Bool.eq_false_or_eq_true p.is_executed with ht | hf
              · exact ht
              · exact absurd ⟨hx, hf⟩ hq

/-- A failed vote request leaves the proposal unchanged when applied in a
sequence. -/
theorem applyVotes_error_skip (round : RelayRound) (p : RelayRoundProposal)
    (op : VoteOp) (ops : List VoteOp) (e : RoundLoaderError)
    (he : voteOnProposal round p op.relay op.v op.now = .error e) :
    applyVotes round (op :: ops) p = applyVotes round ops p := by
  show (match voteOnProposal round p op.relay op.v op.now with
    | .ok p1 => applyVotes round ops p1
    | .error _ => applyVotes round ops p) = applyVotes round ops p
  rw [he]

/-- A successful vote request advances the proposal in a sequence. -/
theorem applyVotes_ok_step (round : RelayRound) (p : RelayRoundProposal)
    (op : VoteOp) (ops : List VoteOp) (p1 : RelayRoundProposal)
    (hok : voteOnProposal round p op.relay op.v op.now = .ok p1) :
    applyVotes round (op :: ops) p = applyVotes round ops p1 := by
  show (match voteOnProposal round p op.relay op.v op.now with
    | .ok q => applyVotes round ops q
    | .error _ => applyVotes round ops p) = applyVotes round ops p1
  rw [hok]

theorem applyVotes_append (round : RelayRound) (ops1 ops2 : List VoteOp)
    (p : RelayRoundProposal) :
    applyVotes round (ops1 ++ ops2) p
      = applyVotes round ops2 (applyVotes round ops1 p) := by
  induction ops1 generalizing p with
  | nil => rfl
  | cons op ops ih =>
      rcases hv : voteOnProposal round p op.relay op.v op.now with e | p1
      · rw [List.cons_append, applyVotes_error_skip round p op (ops ++ ops2) e hv,
          ih p, applyVotes_error_skip round p op ops e hv]
      · rw [List.cons_append, applyVotes_ok_step round p op (ops ++ ops2) p1 hv,
          ih p1, applyVotes_ok_step round p op ops p1 hv]

theorem applyVotes_required_votes (round : RelayRound) (ops : List VoteOp)
    (p : RelayRoundProposal) :
    (applyVotes round ops p).required_votes = p.required_votes := by
  induction ops generalizing p with
  | nil => rfl
  | cons op ops ih =>
      unfold applyVotes
      rcases hv : voteOnProposal round p op.relay op.v op.now with e | p1
      · exact ih p
      · obtain ⟨slot, -, -, -, hreq, -⟩ :=
          voteOnProposal_ok_destruct round p p1 op.relay op.v op.now hv
        rw [ih p1, hreq]

theorem applyVotes_executed_mono (round : RelayRound) (ops : List VoteOp)
    (p : RelayRoundProposal) (h : p.is_executed = true) :
    (applyVotes round ops p).is_executed = true := by
  induction ops generalizing p with
  | nil => exact h
  | cons op ops ih =>
      unfold applyVotes
      rcases hv : voteOnProposal round p op.relay op.v op.now with e | p1
      · exact ih p h
      · obtain ⟨slot, -, -, -, -, hiff⟩ :=
          voteOnProposal_ok_destruct round p p1 op.relay op.v op.now hv
        exact ih p1 (hiff.mpr (Or.inl h))

theorem applyVotes_countConfirm_mono (round : RelayRound) (ops : List VoteOp)
    (p : RelayRoundProposal) :
    countConfirm p.signers ≤ countConfirm (applyVotes round ops p).signers := by
  induction ops generalizing p with
  | nil => exact le_rfl
  | cons op ops ih =>
      unfold applyVotes
      rcases hv : voteOnProposal round p op.relay op.v op.now with e | p1
      · exact ih p
      · obtain ⟨slot, -, hnone, hset, -, -⟩ :=
          voteOnProposal_ok_destruct round p p1 op.relay op.v op.now hv
        calc countConfirm p.signers
            ≤ countConfirm (p.signers.set slot op.v) :=
              countConfirm_le_set p.signers slot op.v hnone
          _ = countConfirm p1.signers := by rw [hset]
          _ ≤ countConfirm (applyVotes round ops p1).signers := ih p1

theorem applyVotes_quorum_at_flip (round : RelayRound) (ops : List VoteOp)
    (p : RelayRoundProposal) (h0 : p.is_executed = false)
    (h1 : (applyVotes round ops p).is_executed = true) :
    p.required_votes ≤ countConfirm (applyVotes round ops p).signers := by
  induction ops generalizing p with
  | nil =>
      rw [applyVotes] at h1
      rw [h1] at h0
      exact absurd h0 (by simp)
  | cons op ops ih =>
      rw [applyVotes] at h1 ⊢
      rcases hv : voteOnProposal round p op.relay op.v op.now with e | p1
      · rw [hv] at h1
        exact ih p h0 h1
      · rw [hv] at h1
        obtain ⟨slot, -, hnone, hset, hreq, hiff⟩ :=
          voteOnProposal_ok_destruct round p p1 op.relay op.v op.now hv
        rcases Bool.eq_false_or_eq_true p1.is_executed with hp1 | hp1
        case inr =>
          have := ih p1 hp1 h1
          rw [hreq] at this
          exact this
        case inl =>
          have hquo : p.required_votes ≤ countConfirm p1.signers := by
            rcases hiff.mp hp1 with hx | hx
            · rw [hx] at h0
              exact absurd h0 (by simp)
            · rw [hset]
              exact hx
          exact le_trans hquo (applyVotes_countConfirm_mono round ops p1)

/-! ### C2 — the executed flag flips at most once, only at quorum -/

/-- C2: over any sequence of vote requests, the quorum threshold never
changes; once `executed` is true it stays true (so it flips from false to
true at most once and never back); if it flipped during the sequence then the
confirmation count of the result has reached the threshold; and a single
successful vote on a not-yet-executed proposal marks it executable exactly
when the recomputed confirmation count reaches `required_votes`. -/
theorem executed_flips_once (round : RelayRound) (ops : List VoteOp)
    (p : RelayRoundProposal) :
    ((applyVotes round ops p).required_votes = p.required_votes)
    ∧ (p.is_executed = true → (applyVotes round ops p).is_executed = true)
    ∧ (∀ ops2, (applyVotes round ops p).is_executed = true →
        (applyVotes round (ops ++ ops2) p).is_executed = true)
    ∧ (p.is_executed = false → (applyVotes round ops p).is_executed = true →
        p.required_votes ≤ countConfirm (applyVotes round ops p).signers)
    ∧ (∀ relay v now p1, voteOnProposal round p relay v now = .ok p1 →
        p.is_executed = false →
        (p1.is_executed = true ↔ p.required_votes ≤ countConfirm p1.signers)) := by
  refine ⟨applyVotes_required_votes round ops p, applyVotes_executed_mono round ops p,
    ?_, applyVotes_quorum_at_flip round ops p, ?_⟩
  · intro ops2 h
    rw [applyVotes_append]
    exact applyVotes_executed_mono round ops2 _ h
  · intro relay v now p1 hv h0
    obtain ⟨slot, -, -, hset, -, hiff⟩ :=
      voteOnProposal_ok_destruct round p p1 relay v now hv
    rw [hiff, h0, ← hset]
    simp

/-- The three sample relays each confirming the sample proposal. -/
def sampleOps : List VoteOp :=
  [⟨mkBytes32 1, Vote.confirm, 100⟩, ⟨mkBytes32 2, Vote.confirm, 101⟩,
   ⟨mkBytes32 3, Vote.confirm, 102⟩]

/-- Witness for C2: after the three sample confirmations the proposal is
executed and its confirmation count has reached the quorum threshold. -/
theorem executed_flips_once_witness :
    sampleProposal.required_votes
      ≤ countConfirm (applyVotes sampleRound sampleOps sampleProposal).signers :=
  (executed_flips_once sampleRound sampleOps sampleProposal).2.2.2.1
    rfl (by decide)

/-! ### C3 — vote error cases -/

/-- C3: with `round` the relay round named by `proposal.round_number`, a vote
fails with `InvalidRelay` when the relay has no slot in the round's relay
set; with `RelayRoundExpired` when the current time exceeds `round_end` and
the proposal is not executed; with `RelayAlreadyVoted` when the relay's slot
is already filled; failed requests leave the proposal unchanged in a
sequence; and a relay that voted successfully fails its second vote with
`RelayAlreadyVoted` while its slot keeps the first vote. -/
theorem vote_error_cases (round : RelayRound) (p : RelayRoundProposal)
    (relay : Pubkey) (v : Vote) (now : Int)
    (_hmatch : round.round_number = p.round_number) :
    (findSlot round.relays relay = Option.none →
      voteOnProposal round p relay v now = .error .InvalidRelay)
    ∧ (∀ slot, findSlot round.relays relay = Option.some slot →
        now > round.round_end → p.is_executed = false →
        voteOnProposal round p relay v now = .error .RelayRoundExpired)
    ∧ (∀ slot, findSlot round.relays relay = Option.some slot →
        ¬(now > round.round_end ∧ p.is_executed = false) →
        p.signers.getD slot Vote.none ≠ Vote.none →
        voteOnProposal round p relay v now = .error .RelayAlreadyVoted)
    ∧ (∀ e ops, voteOnProposal round p relay v now = .error e →
        applyVotes round (⟨relay, v, now⟩ :: ops) p = applyVotes round ops p)
    ∧ (∀ p1 v2 now2, voteOnProposal round p relay v now = .ok p1 →
        v ≠ Vote.none →
        p.signers.length = round.relays.length →
        ¬(now2 > round.round_end ∧ p1.is_executed = false) →
        voteOnProposal round p1 relay v2 now2 = .error .RelayAlreadyVoted
        ∧ ∃ slot, findSlot round.relays relay = Option.some slot
            ∧ p1.signers.getD slot Vote.none = v) := by
  refine ⟨?_, ?_, ?_, ?_, ?_⟩
  · intro hnone
    unfold voteOnProposal
    rw [hnone]
  · intro slot hslot hlate hnexec
    unfold voteOnProposal
    simp only [hslot]
    rw [if_pos (show now > round.round_end ∧ p.is_executed = false from
      ⟨hlate, hnexec⟩)]
  · intro slot hslot hnexp hfilled
    unfold voteOnProposal
    simp only [hslot]
    rw [if_neg hnexp, if_pos hfilled]
  · intro e ops he
    exact applyVotes_error_skip round p ⟨relay, v, now⟩ ops e he
  · intro p1 v2 now2 hv hvne hlen hnexp2
    obtain ⟨slot, hslot, hnone, hset, -, -⟩ :=
      voteOnProposal_ok_destruct round p p1 relay v now hv
    have hlt : slot < p.signers.length := by
      rw [hlen]
      exact findSlot_lt_length round.relays relay slot hslot
    have hgetv : p1.signers.getD slot Vote.none = v := by
      rw [hset]
      exact getD_set_self p.signers slot v hlt
    refine ⟨?_, slot, hslot, hgetv⟩
    unfold voteOnProposal
    simp only [hslot]
    rw [if_neg hnexp2]
    rw [if_pos (by rw [hgetv]; exact hvne)]

/-- A proposal in which the first sample relay has already voted Confirm. -/
def sampleProposalVoted : RelayRoundProposal :=
  { sampleProposal with signers := [Vote.confirm, Vote.none, Vote.none] }

/-- Witness for C3: an unknown relay is rejected with `InvalidRelay`, and the
first sample relay voting again is rejected with `RelayAlreadyVoted`. -/
theorem vote_error_cases_witness :
    voteOnProposal sampleRound sampleProposal (mkBytes32 9) Vote.confirm 100
        = .error .InvalidRelay
    ∧ voteOnProposal sampleRound sampleProposalVoted (mkBytes32 1)
        Vote.confirm 100 = .error .RelayAlreadyVoted :=
  ⟨(vote_error_cases sampleRound sampleProposal (mkBytes32 9) Vote.confirm 100
      rfl).1 (by decide),
   (vote_error_cases sampleRound sampleProposalVoted (mkBytes32 1) Vote.confirm
      100 rfl).2.2.1 0 (by decide) (by decide) (by decide)⟩

/-! ### Assembler lemmas (towards C5) -/

theorem getD_set_eq (l : List (Option Nat)) (i : Nat) (v : Option Nat)
    (h : i < l.length) : (l.set i v).getD i Option.none = v := by
  induction l generalizing i with
  | nil => simp at h
  | cons y ys ih =>
      cases i with
      | zero => rfl
      | succ j =>
          simp only [List.set_cons_succ, List.getD_cons_succ]
          exact ih j (by simpa using h)

theorem getD_set_ne (l : List (Option Nat)) (i j : Nat) (v : Option Nat)
    (h : i ≠ j) : (l.set j v).getD i Option.none = l.getD i Option.none := by
  induction l generalizing i j with
  | nil => simp
  | cons y ys ih =>
      cases j with
      | zero =>
          cases i with
          | zero => exact absurd rfl h
          | succ i0 => rfl
      | succ j0 =>
          cases i with
          | zero => rfl
          | succ i0 =>
              simp only [List.set_cons_succ, List.getD_cons_succ]
              exact ih i0 j0 (fun hc => h (by rw [hc]))

theorem setRange_length (bytes : List Nat) (buf : List (Option Nat))
    (o : Nat) : (setRange buf o bytes).length = buf.length := by
  induction bytes generalizing buf o with
  | nil => rfl
  | cons b bs ih =>
      rw [setRange, ih, List.length_set]

/-- Pointwise characterisation of `setRange`: inside the written window (and
inside the buffer) the byte comes from the chunk; elsewhere the buffer is
untouched. -/
theorem setRange_getD (bytes : List Nat) (buf : List (Option Nat)) (o i : Nat) :
    (setRange buf o bytes).getD i Option.none
      = if o ≤ i ∧ i < o + bytes.length ∧ i < buf.length
        then Option.some (bytes.getD (i - o) 0)
        else buf.getD i Option.none := by
  induction bytes generalizing buf o with
  | nil =>
      rw [setRange, if_neg (by simp only [List.length_nil]; omega)]
  | cons b bs ih =>
      rw [setRange, ih]
      by_cases h1 : o + 1 ≤ i ∧ i < o + 1 + bs.length
          ∧ i < (buf.set o (Option.some b)).length
      · rw [if_pos h1,
          if_pos (show o ≤ i ∧ i < o + (b :: bs).length ∧ i < buf.length by
            have := h1.2.2
            rw [List.length_set] at this
            refine ⟨by omega, by simp only [List.length_cons]; omega, this⟩)]
        have hio : i - o = (i - (o + 1)) + 1 := by omega
        rw [hio, List.getD_cons_succ]
      · rw [if_neg h1]
        by_cases h2 : i = o ∧ i < buf.length
        · obtain ⟨rfl, hlen⟩ := h2
          rw [if_pos (show i ≤ i ∧ i < i + (b :: bs).length ∧ i < buf.length by
            refine ⟨le_rfl, by simp only [List.length_cons]; omega, hlen⟩)]
          rw [getD_set_eq buf i (Option.some b) hlen]
          rw [Nat.sub_self, List.getD_cons_zero]
        · rw [if_neg (show ¬(o ≤ i ∧ i < o + (b :: bs).length ∧ i < buf.length) by
            simp only [List.length_cons]
            intro hc
            rcases Nat.lt_or_ge i (o + 1) with hi | hi
            · exact h2 ⟨by omega, hc.2.2⟩
            · exact h1 ⟨hi, by omega, by rw [List.length_set]; exact hc.2.2⟩)]
          by_cases hio : i = o
          · subst hio
            have hge : buf.length ≤ i := by
              by_contra hlt
              exact h2 ⟨rfl, by omega⟩
            rw [List.set_eq_of_length_le hge]
          · exact getD_set_ne buf i o (Option.some b) hio

/-- `chunkStep` in closed form. -/
theorem chunkStep_eq (buf : List (Option Nat)) (w : Nat × List Nat) :
    chunkStep buf w
      = if w.1 + w.2.length > buf.length then buf
        else setRange buf w.1 w.2 := by
  unfold chunkStep writeChunk
  split_ifs <;> rfl

theorem chunkStep_length (buf : List (Option Nat)) (w : Nat × List Nat) :
    (chunkStep buf w).length = buf.length := by
  rw [chunkStep_eq]
  split_ifs
  · rfl
  · exact setRange_length w.2 buf w.1

/-- Two `setRange` writes over disjoint windows commute. -/
theorem setRange_comm (buf : List (Option Nat)) (o1 : Nat) (b1 : List Nat)
    (o2 : Nat) (b2 : List Nat)
    (hd : o1 + b1.length ≤ o2 ∨ o2 + b2.length ≤ o1) :
    setRange (setRange buf o1 b1) o2 b2
      = setRange (setRange buf o2 b2) o1 b1 := by
  apply List.ext_getElem (by simp only [setRange_length])
  intro i hi1 hi2
  have e : (setRange (setRange buf o1 b1) o2 b2).getD i Option.none
      = (setRange (setRange buf o2 b2) o1 b1).getD i Option.none := by
    simp only [setRange_getD, setRange_length]
    split_ifs <;> first | rfl | omega
  rwa [List.getD_eq_getElem _ _ hi1, List.getD_eq_getElem _ _ hi2] at e

/-- Rewriting the same window with the same bytes is idempotent. -/
theorem setRange_idem (buf : List (Option Nat)) (o : Nat) (bs : List Nat) :
    setRange (setRange buf o bs) o bs = setRange buf o bs := by
  apply List.ext_getElem (by simp only [setRange_length])
  intro i hi1 hi2
  have e : (setRange (setRange buf o bs) o bs).getD i Option.none
      = (setRange buf o bs).getD i Option.none := by
    simp only [setRange_getD, setRange_length]
    split_ifs <;> rfl
  rwa [List.getD_eq_getElem _ _ hi1, List.getD_eq_getElem _ _ hi2] at e

/-- Chunk-write steps over identical-or-disjoint windows commute. -/
theorem chunkStep_comm (buf : List (Option Nat)) (w1 w2 : Nat × List Nat)
    (h : w1 = w2 ∨ disjointChunks w1 w2) :
    chunkStep (chunkStep buf w1) w2 = chunkStep (chunkStep buf w2) w1 := by
  rcases h with rfl | hd
  · rfl
  · simp only [chunkStep_eq, apply_ite List.length, setRange_length, ite_self]
    split_ifs <;> first | rfl | (exact setRange_comm buf w1.1 w1.2 w2.1 w2.2 hd)

/-- A repeated chunk write is idempotent. -/
theorem chunkStep_idem (buf : List (Option Nat)) (w : Nat × List Nat) :
    chunkStep (chunkStep buf w) w = chunkStep buf w := by
  simp only [chunkStep_eq, apply_ite List.length, setRange_length, ite_self]
  split_ifs <;> first | rfl | (exact setRange_idem buf w.1 w.2)

/-- Positions covered by no chunk of the sequence keep their buffer value. -/
theorem applyChunks_getD_untouched (l : List (Nat × List Nat))
    (buf : List (Option Nat)) (i : Nat)
    (h : ∀ w ∈ l, i < w.1 ∨ w.1 + w.2.length ≤ i) :
    (applyChunks l buf).getD i Option.none = buf.getD i Option.none := by
  induction l generalizing buf with
  | nil => rfl
  | cons w ws ih =>
      show (applyChunks ws (chunkStep buf w)).getD i Option.none = _
      rw [ih (chunkStep buf w) (fun x hx => h x (List.mem_cons_of_mem w hx))]
      rw [chunkStep_eq]
      split_ifs with hc
      · rfl
      · rw [setRange_getD,
          if_neg (by
            rcases h w (List.mem_cons_self w ws) with hw | hw <;> omega)]

/-- A buffer with an unwritten byte within its length cannot be finalized. -/
theorem finalizeChunks_incomplete (buf : List (Option Nat)) (i : Nat)
    (hi : i < buf.length) (hnone : buf.getD i Option.none = Option.none) :
    finalizeChunks buf = .error .incompleteProposal := by
  unfold finalizeChunks
  rw [if_neg ?_]
  intro hall
  rw [List.all_eq_true] at hall
  rw [List.getD_eq_getElem _ _ hi] at hnone
  have := hall buf[i] (List.getElem_mem hi)
  rw [hnone] at this
  simp at this

theorem emptyBuf_length (total : Nat) : (emptyBuf total).length = total := by
  simp [emptyBuf]

theorem emptyBuf_getD (total i : Nat) :
    (emptyBuf total).getD i Option.none = Option.none := by
  unfold emptyBuf
  induction total generalizing i with
  | zero => rfl
  | succ n ih =>
      cases i with
      | zero => rfl
      | succ j =>
          rw [List.replicate_succ, List.getD_cons_succ]
          exact ih j

theorem applyChunks_length (l : List (Nat × List Nat))
    (buf : List (Option Nat)) : (applyChunks l buf).length = buf.length := by
  induction l generalizing buf with
  | nil => rfl
  | cons w ws ih =>
      show (applyChunks ws (chunkStep buf w)).length = buf.length
      rw [ih, chunkStep_length]

/-! ### C5 — chunk writes commute -/

/-- C5: over a pre-sized buffer of the declared total length, writing a list
of chunk windows that are pairwise identical or disjoint in any permuted
order yields the same buffer — hence `finalize` yields an identical decoded
event; a repeat of the same window is idempotent; and if some byte position
of the declared length is covered by no written window, `finalize` fails with
`IncompleteProposal`. -/
theorem chunk_writes_commute (total : Nat) (l l2 : List (Nat × List Nat))
    (hperm : l.Perm l2)
    (hcompat : ∀ x ∈ l, ∀ y ∈ l, x = y ∨ disjointChunks x y) :
    applyChunks l (emptyBuf total) = applyChunks l2 (emptyBuf total)
    ∧ finalizeChunks (applyChunks l2 (emptyBuf total))
        = finalizeChunks (applyChunks l (emptyBuf total))
    ∧ (∀ buf w, chunkStep (chunkStep buf w) w = chunkStep buf w)
    ∧ (∀ i, i < total → (∀ w ∈ l, i < w.1 ∨ w.1 + w.2.length ≤ i) →
        finalizeChunks (applyChunks l (emptyBuf total))
          = .error .incompleteProposal) := by
  have hmain : applyChunks l (emptyBuf total) = applyChunks l2 (emptyBuf total) := by
    unfold applyChunks
    exact hperm.foldl_eq'
      (fun x hx y hy z => chunkStep_comm z x y (hcompat x hx y hy))
      (emptyBuf total)
  refine ⟨hmain, by rw [hmain], fun buf w => chunkStep_idem buf w, ?_⟩
  intro i hi hout
  apply finalizeChunks_incomplete _ i
  · rw [applyChunks_length, emptyBuf_length]
    exact hi
  · rw [applyChunks_getD_untouched l _ i hout]
    exact emptyBuf_getD total i

/-- The serialized sample event written as two non-overlapping chunks, in
order. -/
def sampleChunksA : List (Nat × List Nat) := [(0, [4, 0, 0, 0]), (4, [9, 9, 9, 9])]

/-- The same two chunks, written out of order. -/
def sampleChunksB : List (Nat × List Nat) := [(4, [9, 9, 9, 9]), (0, [4, 0, 0, 0])]

/-- Witness for C5: the two chunk orders assemble the same buffer, finalize
identically, and in fact decode to the length-prefixed event `⟨4, [9,9,9,9]⟩`. -/
theorem chunk_writes_commute_witness :
    applyChunks sampleChunksA (emptyBuf 8) = applyChunks sampleChunksB (emptyBuf 8)
    ∧ finalizeChunks (applyChunks sampleChunksB (emptyBuf 8))
        = finalizeChunks (applyChunks sampleChunksA (emptyBuf 8))
    ∧ finalizeChunks (applyChunks sampleChunksA (emptyBuf 8))
        = .ok ⟨4, [9, 9, 9, 9]⟩ :=
  ⟨(chunk_writes_commute 8 sampleChunksA sampleChunksB (by decide) (by decide)).1,
   (chunk_writes_commute 8 sampleChunksA sampleChunksB (by decide) (by decide)).2.1,
   by rfl⟩

/-! ### Serialization round-trip lemmas (towards C9) -/

theorem pBytes_append (k : Nat) (l r : List Nat) (h : l.length = k) :
    pBytes k (l ++ r) = Option.some (l, r) := by
  induction k generalizing l with
  | zero =>
      rw [List.length_eq_zero.mp h]
      rfl
  | succ k ih =>
      rcases l with _ | ⟨b, l'⟩
      · simp at h
      · rw [List.cons_append]
        show (pBytes k (l' ++ r)).map _ = _
        rw [ih l' (by simpa using h)]
        rfl

theorem pBool_ser (b : Bool) (rest : List Nat) :
    pBool (serBool b ++ rest) = Option.some (b, rest) := by
  cases b <;> rfl

theorem pU64_ser (n : Nat) (rest : List Nat) (h : n < 2 ^ 64) :
    pU64 (serU64 n ++ rest) = Option.some (n, rest) := by
  unfold pU64 serU64
  rw [pBytes_append 8 _ rest (length_encodeLE 8 n), Option.map_some',
    decodeLE_encodeLE, show (256 : Nat) ^ 8 = 2 ^ 64 from by norm_num,
    Nat.mod_eq_of_lt h]

theorem pI64_ser (x : Int) (rest : List Nat)
    (h1 : -(2 ^ 63) ≤ x) (h2 : x < 2 ^ 63) :
    pI64 (serI64 x ++ rest) = Option.some (x, rest) := by
  unfold pI64 serI64
  rw [pBytes_append 8 _ rest (length_encodeLE 8 _), Option.map_some',
    decodeLE_encodeLE, show (256 : Nat) ^ 8 = 2 ^ 64 from by norm_num]
  rw [show (2 : Int) ^ 64 = 18446744073709551616 from by norm_num,
    show (2 : Nat) ^ 64 = 18446744073709551616 from by norm_num,
    show (2 : Nat) ^ 63 = 9223372036854775808 from by norm_num]
  split_ifs with hc
  · simp only [Option.some.injEq, Prod.mk.injEq, and_true]
    omega
  · simp only [Option.some.injEq, Prod.mk.injEq, and_true]
    omega

theorem pBytes32_ser (p : Bytes32) (rest : List Nat) :
    pBytes32 (serBytes32 p ++ rest) = Option.some (p, rest) := by
  unfold pBytes32 serBytes32
  rw [pBytes_append 32 p.val rest p.property]
  show (if h : (p.val).length = 32 then Option.some ((⟨p.val, h⟩ : Bytes32), rest)
    else Option.none) = Option.some (p, rest)
  rw [dif_pos p.property]

theorem pTokenKind_ser (k : TokenKind) (rest : List Nat) :
    pTokenKind (serTokenKind k ++ rest) = Option.some (k, rest) := by
  cases k with
  | ever mint =>
      show Option.map (fun m => (TokenKind.ever m.1, m.2))
        (pBytes32 (serBytes32 mint ++ rest)) = _
      rw [pBytes32_ser mint rest]
      rfl
  | solana mint vault =>
      have hshape : serTokenKind (TokenKind.solana mint vault) ++ rest
          = 1 :: (serBytes32 mint ++ (serBytes32 vault ++ rest)) := by
        simp [serTokenKind]
      rw [hshape]
      show (match pBytes32 (serBytes32 mint ++ (serBytes32 vault ++ rest)) with
        | Option.some (m, r1) =>
            Option.map (fun v => (TokenKind.solana m v.1, v.2)) (pBytes32 r1)
        | Option.none => Option.none)
        = Option.some (TokenKind.solana mint vault, rest)
      rw [pBytes32_ser mint (serBytes32 vault ++ rest)]
      show Option.map (fun v => (TokenKind.solana mint v.1, v.2))
        (pBytes32 (serBytes32 vault ++ rest)) = _
      rw [pBytes32_ser vault rest]
      rfl

/-- Full round trip of the `Settings` serialization against arbitrary
trailing bytes. -/
theorem pSettings_ser (s : Settings) (rest : List Nat) (h : s.wellFormed) :
    pSettings (serSettings s ++ rest) = Option.some (s, rest) := by
  obtain ⟨h1, h2, h3, h4, h5, h6⟩ := h
  simp only [serSettings, List.append_assoc, pSettings, pBool_ser,
    Option.some_bind, pTokenKind_ser, pBytes32_ser, pU64_ser, pI64_ser,
    h1, h2, h3, h4, h5, h6]

theorem serSettings_length (s : Settings) :
    (serSettings s).length = 74 + (serTokenKind s.kind).length := by
  simp [serSettings, serBool, serBytes32, serU64, serI64, length_encodeLE,
    s.admin.property]
  omega

theorem serTokenKind_length (k : TokenKind) :
    (serTokenKind k).length = 33 ∨ (serTokenKind k).length = 65 := by
  cases k with
  | ever mint =>
      left
      simp [serTokenKind, serBytes32, mint.property]
  | solana mint vault =>
      right
      simp [serTokenKind, serBytes32, mint.property, vault.property]

/-! ### C9 — the shape of the token-proxy Settings record -/

/-- A concrete value of the spec's Settings shape. -/
def sampleSpecSettings : SpecSettings :=
  ⟨mkBytes32 0, mkBytes32 0, mkBytes32 0, mkBytes32 0, false, 0, 0, 0, 0, 0, 0⟩

/-- C9 (counterexample): the spec's Settings shape — with admin, guardian,
manager and withdrawal_manager identities, the limits and accumulator, a
window-start timestamp and a current_round_number — serializes (at the
sample value) to 173 bytes, while the source `Settings` record serializes to
107 or 139 bytes (depending on the `TokenKind` variant); no source Settings
value can represent the spec's record, so the claimed guardian, manager,
withdrawal_manager, withdrawal_window_start and current_round_number fields
do not exist in the source record. -/
theorem settings_lacks_spec_fields :
    (serSpecSettings sampleSpecSettings).length = 173
    ∧ ¬ ∃ s : Settings,
        (serSettings s).length = (serSpecSettings sampleSpecSettings).length := by
  have hspec : (serSpecSettings sampleSpecSettings).length = 173 := by rfl
  refine ⟨hspec, ?_⟩
  rintro ⟨s, hs⟩
  rw [hspec, serSettings_length s] at hs
  rcases serTokenKind_length s.kind with hk | hk <;> omega

/-- C9 (amended): the source `Settings` record consists of exactly the fields
`is_initialized`, `kind`, `admin`, `emergency`, `deposit_limit`,
`withdrawal_limit`, `withdrawal_daily_limit`, `withdrawal_daily_amount` and
`withdrawal_ttl` — its borsh serialization determines the record completely
and round-trips, with or without trailing bytes. -/
theorem settings_serialization_roundtrip (s : Settings) (h : s.wellFormed) :
    pSettings (serSettings s) = Option.some (s, [])
    ∧ ∀ rest, pSettings (serSettings s ++ rest) = Option.some (s, rest) := by
  refine ⟨?_, fun rest => pSettings_ser s rest h⟩
  have hx := pSettings_ser s [] h
  rwa [List.append_nil] at hx

/-- Witness for C9 (amended): the sample Settings record round-trips. -/
theorem settings_serialization_roundtrip_witness :
    pSettings (serSettings sampleSettings)
      = Option.some (sampleSettings, []) :=
  (settings_serialization_roundtrip sampleSettings (by decide)).1

end SolanaContracts
